import Mathlib

/-!
Verification of the CSV-backed event log and summary service of `src/main.py`
(endpoints `file_append_endpoint` and `get_file_summary`).

The file `data.csv` is modelled as `Option (List Char)`: `none` means the file
does not exist, `some cs` means it exists with contents `cs` (a character
sequence; the file is UTF-8 text and Python reads it as a `str`).

The write path uses `csv.writer` on a file opened with `newline=""`, so the
characters produced by the writer reach the file unchanged (default dialect:
delimiter `,`, quotechar `"`, doublequote, QUOTE_MINIMAL, lineterminator
`\r\n`).  The read path opens the file WITHOUT `newline=""`, so Python's
universal-newlines translation replaces every `\r\n` and every lone `\r`
by `\n` before the characters reach `csv.reader`.  Both halves are embedded
below.
-/

namespace Alex2

/-! ### The csv.writer side (QUOTE_MINIMAL, default dialect) -/

/-- A field must be quoted when it contains the delimiter, the quote
character, or a character of the line terminator `\r\n`. -/
def needsQuote (f : List Char) : Bool :=
  f.any (fun c => c = ',' || c = '"' || c = '\r' || c = '\n')

/-- Doubling of quote characters inside a quoted field (doublequote mode). -/
def escapeQuotes (f : List Char) : List Char :=
  f.flatMap (fun c => if c = '"' then ['"', '"'] else [c])

/-- One encoded field: quoted with doubled quotes when needed, verbatim
otherwise. -/
def encodeField (f : List Char) : List Char :=
  if needsQuote f then '"' :: (escapeQuotes f ++ ['"']) else f

/-- The body of a row: encoded fields joined by the delimiter. -/
def rowBody : List (List Char) → List Char
  | [] => []
  | [f] => encodeField f
  | f :: fs => encodeField f ++ ',' :: rowBody fs

/-- The characters of a row before the line terminator.  A row consisting
of a single empty field is written as `""` so that it is not mistaken for a
blank line on re-reading. -/
def writeBody (fields : List (List Char)) : List Char :=
  match fields with
  | [[]] => ['"', '"']
  | fs => rowBody fs

/-- `csv.writer.writerow`: the row body followed by the `\r\n` terminator. -/
def writeRow (fields : List (List Char)) : List Char :=
  writeBody fields ++ ['\r', '\n']

/-- The canonical header written on file creation:
`["datetime", "ip_address", "user_agent"]`. -/
def headerFields : List (List Char) :=
  ["datetime".data, "ip_address".data, "user_agent".data]

/-- The data captured per request; mirrors `csv_data = [current_datetime,
client_ip, user_agent]` in `file_append_endpoint`. -/
structure LogRecord where
  current_datetime : String
  client_ip : String
  user_agent : String
deriving DecidableEq, Repr

/-- The row written for one record. -/
def recordRow (r : LogRecord) : List (List Char) :=
  [r.current_datetime.data, r.client_ip.data, r.user_agent.data]

/-- One call of the `file-append` endpoint's write phase: create the file
with the header row when it does not exist, then append the record's row.
The second component counts how many times the header row was written
during this call. -/
def file_append (st : Option (List Char)) (r : LogRecord) :
    Option (List Char) × Nat :=
  match st with
  | none => (some (writeRow headerFields ++ writeRow (recordRow r)), 1)
  | some s => (some (s ++ writeRow (recordRow r)), 0)

/-- A sequence of appends, accumulating the header-write count. -/
def appendAll (st : Option (List Char)) (rs : List LogRecord) :
    Option (List Char) × Nat :=
  match rs with
  | [] => (st, 0)
  | r :: rs =>
    let (st2, h) := file_append st r
    let (st3, hs) := appendAll st2 rs
    (st3, h + hs)

/-- Construction of the record's fields in `file_append_endpoint`:
`client_ip = request.client.host if request.client else "unknown"` and
`user_agent = request.headers.get("user-agent", "unknown")`.  The sentinel
is substituted only when the client is absent or the header is missing;
a present-but-empty value is kept as is. -/
def mkRecord (now : String) (clientHost : Option String)
    (userAgentHeader : Option String) : LogRecord :=
  { current_datetime := now
    client_ip := clientHost.getD "unknown"
    user_agent := userAgentHeader.getD "unknown" }

/-! ### Universal-newlines translation on read

The summary and read-back paths open the file with `open(path, "r")` and no
`newline` argument, so `\r\n` and lone `\r` are translated to `\n`. -/

def univNewlines : List Char → List Char
  | [] => []
  | [c] => if c = '\r' then ['\n'] else [c]
  | c :: c2 :: rest =>
    if c = '\r' then
      if c2 = '\n' then '\n' :: univNewlines rest
      else '\n' :: univNewlines (c2 :: rest)
    else c :: univNewlines (c2 :: rest)

/-! ### The csv.reader state machine (default dialect, non-strict)

The reader only ever sees universal-newlines-translated text, which contains
no `\r`, so the machine below needs no carriage-return transitions: it is
applied to raw contents only through `pyCsvRead`, which translates first. -/

inductive PMode where
  | startRecord
  | startField
  | inField
  | inQuoted
  | quoteInQuoted
deriving DecidableEq, Repr

/-- The field/record state machine of `csv.reader`.  `field` is the field
accumulated so far, `row` the fields of the current record. -/
def parseCsv (m : PMode) (field : List Char) (row : List String) : List Char → List (List String)
  | [] =>
    match m with
    | .startRecord => []
    | .startField => [row ++ [⟨field⟩]]
    | .inField => [row ++ [⟨field⟩]]
    | .inQuoted => [row ++ [⟨field⟩]]
    | .quoteInQuoted => [row ++ [⟨field⟩]]
  | c :: rest =>
    match m with
    | .startRecord =>
      if c = '\n' then [] :: parseCsv .startRecord [] [] rest
      else if c = '"' then parseCsv .inQuoted [] [] rest
      else if c = ',' then parseCsv .startField [] [⟨[]⟩] rest
      else parseCsv .inField [c] [] rest
    | .startField =>
      if c = '\n' then (row ++ [⟨[]⟩]) :: parseCsv .startRecord [] [] rest
      else if c = '"' then parseCsv .inQuoted [] row rest
      else if c = ',' then parseCsv .startField [] (row ++ [⟨[]⟩]) rest
      else parseCsv .inField [c] row rest
    | .inField =>
      if c = '\n' then (row ++ [⟨field⟩]) :: parseCsv .startRecord [] [] rest
      else if c = ',' then parseCsv .startField [] (row ++ [⟨field⟩]) rest
      else parseCsv .inField (field ++ [c]) row rest
    | .inQuoted =>
      if c = '"' then parseCsv .quoteInQuoted field row rest
      else parseCsv .inQuoted (field ++ [c]) row rest
    | .quoteInQuoted =>
      if c = '"' then parseCsv .inQuoted (field ++ ['"']) row rest
      else if c = ',' then parseCsv .startField [] (row ++ [⟨field⟩]) rest
      else if c = '\n' then (row ++ [⟨field⟩]) :: parseCsv .startRecord [] [] rest
      else parseCsv .inField (field ++ [c]) row rest

/-- `csv.reader(open(path, "r"))`: universal-newlines translation followed by
the csv state machine. -/
def pyCsvRead (contents : List Char) : List (List String) :=
  parseCsv .startRecord [] [] (univNewlines contents)

/-! ### csv.DictReader -/

/-- One row as seen through `DictReader` with the canonical fieldnames:
a value of `none` is Python's `None` (the `restval` fill for a short row),
and `restkey` holds the overflow of a row longer than the header. -/
structure RowDict where
  datetime : Option String
  ip_address : Option String
  user_agent : Option String
  restkey : List String
deriving DecidableEq, Repr

/-- Index of the last occurrence of a key in the fieldnames list
(`dict(zip(fieldnames, row))` keeps the last value on duplicate keys). -/
def lastIdxOf (fns : List String) (k : String) : Option Nat :=
  match fns with
  | [] => none
  | f :: fs =>
    match lastIdxOf fs k with
    | some i => some (i + 1)
    | none => if f = k then some 0 else none

/-- `dict(zip(fieldnames, row))` with `restval = None`: the value of `k`,
`none` when the row is too short. -/
def dictVal (fns : List String) (r : List String) (k : String) : Option String :=
  (lastIdxOf fns k).bind (fun i => r[i]?)

/-- The `DictReader` record for one data row.  The three named fields are
the lookups the service performs; in every state reachable through this
program the fieldnames row is the canonical header, under which each key
is present. -/
def recordOfRow (fns : List String) (r : List String) : RowDict :=
  { datetime := dictVal fns r "datetime"
    ip_address := dictVal fns r "ip_address"
    user_agent := dictVal fns r "user_agent"
    restkey := r.drop fns.length }

/-- `list(csv.DictReader(csvfile))`: the first parsed row gives the
fieldnames; blank rows among the data are skipped; each remaining row
becomes a dict. -/
def dictReadAll (contents : List Char) : List RowDict :=
  match pyCsvRead contents with
  | [] => []
  | fns :: rows => (rows.filter (fun r => r ≠ [])).map (recordOfRow fns)

/-- The read-back operation including the existence condition: reading an
absent file is the not-found case (`HTTPException 404` in `get_file_summary`);
an existing file always parses to a list of records — the `DictReader` has no
failing case for malformed column counts. -/
def readAllE (st : Option (List Char)) : Except Unit (List RowDict) :=
  match st with
  | none => .error ()
  | some contents => .ok (dictReadAll contents)

/-! ### The file-summary endpoint -/

/-- `len(set(row["ip_address"] for row in csv_content if row["ip_address"] != "unknown"))`. -/
def uniqueIps (content : List RowDict) : Nat :=
  (((content.filter (fun r => r.ip_address ≠ some "unknown")).map
      (fun r => r.ip_address)).dedup).length

/-- `len(set(row["user_agent"] for row in csv_content if row["user_agent"] != "unknown"))`. -/
def uniqueAgents (content : List RowDict) : Nat :=
  (((content.filter (fun r => r.user_agent ≠ some "unknown")).map
      (fun r => r.user_agent)).dedup).length

/-- Python's rendering of a value inside an f-string: `None` prints as
`"None"`. -/
def optStr (o : Option String) : String :=
  match o with
  | none => "None"
  | some s => s

/-- The deterministic fallback narrative of `get_file_summary`, built only
from the computed aggregates. -/
def fallbackText (total_rows ips agents : Nat) (start stop : Option String) : String :=
  "The CSV contains " ++ toString total_rows ++ " entries from " ++
    toString ips ++ " unique IP addresses and " ++ toString agents ++
    " unique user agents, spanning from " ++ optStr start ++ " to " ++
    optStr stop ++ "."

/-- The JSON bodies `get_file_summary` can return (the fixed `message`
strings are determined by the constructor). -/
inductive SummaryResponse where
  | emptyCsv
  | success (total_rows ips agents : Nat) (start stop : Option String)
      (writer_summary : String)
  | fallback (error : String) (fallback_summary : String)
deriving DecidableEq, Repr

/-- `get_file_summary`, with the outbound provider call abstracted as a
function from the parsed records to either generated text or an error
string (the prompt built around `json.dumps(csv_content)` is a function of
`csv_content` alone, so it is absorbed into the provider argument).  The
second component counts provider calls; `Except.error ()` is the
`HTTPException 404` for an absent file. -/
def get_file_summaryT (st : Option (List Char))
    (provider : List RowDict → Except String String) :
    Except Unit SummaryResponse × Nat :=
  match st with
  | none => (.error (), 0)
  | some contents =>
    match dictReadAll contents with
    | [] => (.ok .emptyCsv, 0)
    | c0 :: crest =>
      let content := c0 :: crest
      let total_rows := content.length
      let ips := uniqueIps content
      let agents := uniqueAgents content
      let start := c0.datetime
      let stop := (crest.getLastD c0).datetime
      match provider content with
      | .ok text => (.ok (.success total_rows ips agents start stop text), 1)
      | .error e =>
        (.ok (.fallback e (fallbackText total_rows ips agents start stop)), 1)

/-- The `file-summary` endpoint as a state transformer on the file: its body
only tests existence and opens the file for reading, so the file state it
leaves behind is returned alongside the response. -/
def summaryStep (st : Option (List Char))
    (provider : List RowDict → Except String String) :
    Option (List Char) × (Except Unit SummaryResponse × Nat) :=
  match st with
  | none => (none, get_file_summaryT none provider)
  | some contents => (some contents, get_file_summaryT (some contents) provider)

/-- The dict a round-tripped record is expected to read back as. -/
def recDict (r : LogRecord) : RowDict :=
  { datetime := some r.current_datetime
    ip_address := some r.client_ip
    user_agent := some r.user_agent
    restkey := [] }

/-- No carriage return in any field of the record: the condition under
which the read path's universal-newlines translation cannot corrupt it. -/
def crFree (r : LogRecord) : Prop :=
  '\r' ∉ r.current_datetime.data ∧ '\r' ∉ r.client_ip.data ∧
    '\r' ∉ r.user_agent.data

instance (r : LogRecord) : Decidable (crFree r) := by
  unfold crFree; infer_instance

/-- The string carried by a character list. -/
def strOf (f : List Char) : String := ⟨f⟩

/-- The canonical fieldnames as strings. -/
def hdrStrings : List String := ["datetime", "ip_address", "user_agent"]

/-- The file contents produced by a sequence of appends starting from the
absent file: the header row followed by one row per record. -/
def fileText (rs : List LogRecord) : List Char :=
  ((headerFields :: rs.map recordRow).map writeRow).flatten

/-! ### Lemmas about the universal-newlines translation -/

theorem univNewlines_cons_ne (c : Char) (l : List Char) (h : c ≠ '\r') :
    univNewlines (c :: l) = c :: univNewlines l := by
  cases l with
  | nil => simp [univNewlines, h]
  | cons d t => simp [univNewlines, h]

theorem univNewlines_append_crlf (u rest : List Char) (h : '\r' ∉ u) :
    univNewlines (u ++ '\r' :: '\n' :: rest) = u ++ '\n' :: univNewlines rest := by
  induction u with
  | nil => simp [univNewlines]
  | cons c u ih =>
    have hc : c ≠ '\r' := fun e => h (e ▸ List.mem_cons_self c u)
    have h2 : '\r' ∉ u := fun m => h (List.mem_cons_of_mem c m)
    rw [List.cons_append, univNewlines_cons_ne c _ hc, ih h2, List.cons_append]

/-! ### Single-step unfolding lemmas for the reader state machine -/

theorem parseCsv_startRecord_nil :
    parseCsv .startRecord [] [] [] = [] := rfl

theorem parseCsv_startField_nil (row : List String) :
    parseCsv .startField [] row [] = [row ++ [""]] := rfl

theorem parseCsv_inField_nil (field : List Char) (row : List String) :
    parseCsv .inField field row [] = [row ++ [strOf field]] := rfl

theorem parseCsv_inQuoted_nil (field : List Char) (row : List String) :
    parseCsv .inQuoted field row [] = [row ++ [strOf field]] := rfl

theorem parseCsv_quoteInQuoted_nil (field : List Char) (row : List String) :
    parseCsv .quoteInQuoted field row [] = [row ++ [strOf field]] := rfl

theorem parseCsv_startRecord_cons (c : Char) (rest : List Char) :
    parseCsv .startRecord [] [] (c :: rest)
      = if c = '\n' then [] :: parseCsv .startRecord [] [] rest
        else if c = '"' then parseCsv .inQuoted [] [] rest
        else if c = ',' then parseCsv .startField [] [""] rest
        else parseCsv .inField [c] [] rest := rfl

theorem parseCsv_startField_cons (row : List String) (c : Char) (rest : List Char) :
    parseCsv .startField [] row (c :: rest)
      = if c = '\n' then (row ++ [""]) :: parseCsv .startRecord [] [] rest
        else if c = '"' then parseCsv .inQuoted [] row rest
        else if c = ',' then parseCsv .startField [] (row ++ [""]) rest
        else parseCsv .inField [c] row rest := rfl

theorem parseCsv_inField_cons (field : List Char) (row : List String) (c : Char)
    (rest : List Char) :
    parseCsv .inField field row (c :: rest)
      = if c = '\n' then (row ++ [strOf field]) :: parseCsv .startRecord [] [] rest
        else if c = ',' then parseCsv .startField [] (row ++ [strOf field]) rest
        else parseCsv .inField (field ++ [c]) row rest := rfl

theorem parseCsv_inQuoted_cons (field : List Char) (row : List String) (c : Char)
    (rest : List Char) :
    parseCsv .inQuoted field row (c :: rest)
      = if c = '"' then parseCsv .quoteInQuoted field row rest
        else parseCsv .inQuoted (field ++ [c]) row rest := rfl

theorem parseCsv_quoteInQuoted_cons (field : List Char) (row : List String) (c : Char)
    (rest : List Char) :
    parseCsv .quoteInQuoted field row (c :: rest)
      = if c = '"' then parseCsv .inQuoted (field ++ ['"']) row rest
        else if c = ',' then parseCsv .startField [] (row ++ [strOf field]) rest
        else if c = '\n' then (row ++ [strOf field]) :: parseCsv .startRecord [] [] rest
        else parseCsv .inField (field ++ [c]) row rest := rfl

/-! ### Run lemmas: consuming a whole encoded field -/

theorem parse_startRecord_eq_startField (c : Char) (rest : List Char) (h : c ≠ '\n') :
    parseCsv .startRecord [] [] (c :: rest) = parseCsv .startField [] [] (c :: rest) := by
  rw [parseCsv_startRecord_cons, parseCsv_startField_cons, if_neg h, if_neg h]
  simp

theorem needsQuote_cons_false (c : Char) (f : List Char) (h : needsQuote (c :: f) = false) :
    c ≠ ',' ∧ c ≠ '"' ∧ c ≠ '\r' ∧ c ≠ '\n' ∧ needsQuote f = false := by
  simp only [needsQuote, List.any_cons, Bool.or_eq_false_iff,
    decide_eq_false_iff_not] at h
  exact ⟨h.1.1.1.1, h.1.1.1.2, h.1.1.2, h.1.2, h.2⟩

theorem parse_inField_comma (f : List Char) (acc : List Char) (row : List String)
    (rest : List Char) (h : needsQuote f = false) :
    parseCsv .inField acc row (f ++ ',' :: rest)
      = parseCsv .startField [] (row ++ [strOf (acc ++ f)]) rest := by
  induction f generalizing acc with
  | nil =>
    rw [List.nil_append, parseCsv_inField_cons, if_neg (by decide), if_pos rfl,
      List.append_nil]
  | cons c f ih =>
    obtain ⟨hc1, hc2, _, hc4, hf⟩ := needsQuote_cons_false c f h
    rw [List.cons_append, parseCsv_inField_cons, if_neg hc4, if_neg hc1,
      ih (acc ++ [c]) hf, List.append_assoc, List.singleton_append]

theorem parse_inField_newline (f : List Char) (acc : List Char) (row : List String)
    (rest : List Char) (h : needsQuote f = false) :
    parseCsv .inField acc row (f ++ '\n' :: rest)
      = (row ++ [strOf (acc ++ f)]) :: parseCsv .startRecord [] [] rest := by
  induction f generalizing acc with
  | nil =>
    rw [List.nil_append, parseCsv_inField_cons, if_pos rfl, List.append_nil]
  | cons c f ih =>
    obtain ⟨hc1, hc2, _, hc4, hf⟩ := needsQuote_cons_false c f h
    rw [List.cons_append, parseCsv_inField_cons, if_neg hc4, if_neg hc1,
      ih (acc ++ [c]) hf, List.append_assoc, List.singleton_append]

theorem escapeQuotes_cons (c : Char) (f : List Char) :
    escapeQuotes (c :: f)
      = (if c = '"' then ['"', '"'] else [c]) ++ escapeQuotes f := by
  simp [escapeQuotes]

theorem parse_inQuoted_comma (f : List Char) (acc : List Char) (row : List String)
    (rest : List Char) :
    parseCsv .inQuoted acc row (escapeQuotes f ++ '"' :: ',' :: rest)
      = parseCsv .startField [] (row ++ [strOf (acc ++ f)]) rest := by
  induction f generalizing acc with
  | nil =>
    rw [show escapeQuotes [] = [] from rfl, List.nil_append, parseCsv_inQuoted_cons,
      if_pos rfl, parseCsv_quoteInQuoted_cons, if_neg (by decide), if_pos rfl,
      List.append_nil]
  | cons c f ih =>
    by_cases hc : c = '"'
    · subst hc
      have e : escapeQuotes ('"' :: f) ++ '"' :: ',' :: rest
          = '"' :: ('"' :: (escapeQuotes f ++ '"' :: ',' :: rest)) := by
        simp [escapeQuotes_cons]
      rw [e, parseCsv_inQuoted_cons, if_pos rfl, parseCsv_quoteInQuoted_cons,
        if_pos rfl, ih (acc ++ ['"']), List.append_assoc, List.singleton_append]
    · have e : escapeQuotes (c :: f) ++ '"' :: ',' :: rest
          = c :: (escapeQuotes f ++ '"' :: ',' :: rest) := by
        simp [escapeQuotes_cons, hc]
      rw [e, parseCsv_inQuoted_cons, if_neg hc, ih (acc ++ [c]),
        List.append_assoc, List.singleton_append]

theorem parse_inQuoted_newline (f : List Char) (acc : List Char) (row : List String)
    (rest : List Char) :
    parseCsv .inQuoted acc row (escapeQuotes f ++ '"' :: '\n' :: rest)
      = (row ++ [strOf (acc ++ f)]) :: parseCsv .startRecord [] [] rest := by
  induction f generalizing acc with
  | nil =>
    rw [show escapeQuotes [] = [] from rfl, List.nil_append, parseCsv_inQuoted_cons,
      if_pos rfl, parseCsv_quoteInQuoted_cons, if_neg (by decide),
      if_neg (by decide), if_pos rfl, List.append_nil]
  | cons c f ih =>
    by_cases hc : c = '"'
    · subst hc
      have e : escapeQuotes ('"' :: f) ++ '"' :: '\n' :: rest
          = '"' :: ('"' :: (escapeQuotes f ++ '"' :: '\n' :: rest)) := by
        simp [escapeQuotes_cons]
      rw [e, parseCsv_inQuoted_cons, if_pos rfl, parseCsv_quoteInQuoted_cons,
        if_pos rfl, ih (acc ++ ['"']), List.append_assoc, List.singleton_append]
    · have e : escapeQuotes (c :: f) ++ '"' :: '\n' :: rest
          = c :: (escapeQuotes f ++ '"' :: '\n' :: rest) := by
        simp [escapeQuotes_cons, hc]
      rw [e, parseCsv_inQuoted_cons, if_neg hc, ih (acc ++ [c]),
        List.append_assoc, List.singleton_append]

/-! ### Field- and row-level lemmas -/

theorem parse_startField_enc_comma (f : List Char) (row : List String)
    (rest : List Char) :
    parseCsv .startField [] row (encodeField f ++ ',' :: rest)
      = parseCsv .startField [] (row ++ [strOf f]) rest := by
  by_cases hq : needsQuote f
  · rw [encodeField, if_pos hq, List.cons_append, List.append_assoc,
      List.singleton_append, parseCsv_startField_cons, if_neg (by decide),
      if_pos rfl]
    have := parse_inQuoted_comma f [] row rest
    rw [List.nil_append] at this
    exact this
  · rw [encodeField, if_neg hq]
    cases f with
    | nil =>
      rw [List.nil_append, parseCsv_startField_cons, if_neg (by decide),
        if_neg (by decide), if_pos rfl]
      rfl
    | cons c f2 =>
      obtain ⟨hc1, hc2, _, hc4, hf⟩ :=
        needsQuote_cons_false c f2 (by simpa using hq)
      rw [List.cons_append, parseCsv_startField_cons, if_neg hc4, if_neg hc2,
        if_neg hc1]
      have := parse_inField_comma f2 [c] row rest hf
      rw [List.singleton_append] at this
      exact this

theorem parse_startField_enc_newline (f : List Char) (row : List String)
    (rest : List Char) :
    parseCsv .startField [] row (encodeField f ++ '\n' :: rest)
      = (row ++ [strOf f]) :: parseCsv .startRecord [] [] rest := by
  by_cases hq : needsQuote f
  · rw [encodeField, if_pos hq, List.cons_append, List.append_assoc,
      List.singleton_append, parseCsv_startField_cons, if_neg (by decide),
      if_pos rfl]
    have := parse_inQuoted_newline f [] row rest
    rw [List.nil_append] at this
    exact this
  · rw [encodeField, if_neg hq]
    cases f with
    | nil =>
      rw [List.nil_append, parseCsv_startField_cons, if_pos rfl]
      rfl
    | cons c f2 =>
      obtain ⟨hc1, hc2, _, hc4, hf⟩ :=
        needsQuote_cons_false c f2 (by simpa using hq)
      rw [List.cons_append, parseCsv_startField_cons, if_neg hc4, if_neg hc2,
        if_neg hc1]
      have := parse_inField_newline f2 [c] row rest hf
      rw [List.singleton_append] at this
      exact this

theorem parse_startField_rowBody (fields : List (List Char)) (hne : fields ≠ [])
    (row : List String) (rest : List Char) :
    parseCsv .startField [] row (rowBody fields ++ '\n' :: rest)
      = (row ++ fields.map strOf) :: parseCsv .startRecord [] [] rest := by
  induction fields generalizing row with
  | nil => exact absurd rfl hne
  | cons f fs ih =>
    cases fs with
    | nil =>
      rw [show rowBody [f] = encodeField f from rfl,
        parse_startField_enc_newline, List.map_singleton]
    | cons g gs =>
      rw [show rowBody (f :: g :: gs) = encodeField f ++ ',' :: rowBody (g :: gs)
          from rfl,
        List.append_assoc, List.cons_append, parse_startField_enc_comma,
        ih (by simp) (row ++ [strOf f])]
      simp

theorem encodeField_head_ne_nl (f : List Char) (hne : f ≠ []) :
    ∃ c t, encodeField f = c :: t ∧ c ≠ '\n' := by
  by_cases hq : needsQuote f
  · exact ⟨'"', escapeQuotes f ++ ['"'], by rw [encodeField, if_pos hq], by decide⟩
  · cases f with
    | nil => exact absurd rfl hne
    | cons c f2 =>
      obtain ⟨_, _, _, hc4, _⟩ := needsQuote_cons_false c f2 (by simpa using hq)
      exact ⟨c, f2, by rw [encodeField, if_neg hq], hc4⟩

theorem parse_startRecord_writeBody (fields : List (List Char)) (hne : fields ≠ [])
    (rest : List Char) :
    parseCsv .startRecord [] [] (writeBody fields ++ '\n' :: rest)
      = fields.map strOf :: parseCsv .startRecord [] [] rest := by
  match fields with
  | [[]] =>
    rw [show writeBody [[]] = ['"', '"'] from rfl]
    rw [show (['"', '"'] : List Char) ++ '\n' :: rest = '"' :: '"' :: '\n' :: rest
        from rfl]
    rw [parseCsv_startRecord_cons, if_neg (by decide), if_pos rfl,
      parseCsv_inQuoted_cons, if_pos rfl, parseCsv_quoteInQuoted_cons,
      if_neg (by decide), if_neg (by decide), if_pos rfl]
    rfl
  | [] => exact absurd rfl hne
  | f :: g :: gs =>
    have hb : writeBody (f :: g :: gs) = rowBody (f :: g :: gs) := by
      rw [writeBody]
      simp
    rw [hb]
    have key : parseCsv .startField [] [] (rowBody (f :: g :: gs) ++ '\n' :: rest)
        = (f :: g :: gs).map strOf :: parseCsv .startRecord [] [] rest := by
      have := parse_startField_rowBody (f :: g :: gs) (by simp) [] rest
      rw [List.nil_append] at this
      exact this
    cases f with
    | nil =>
      rw [show rowBody ([] :: g :: gs) = encodeField [] ++ ',' :: rowBody (g :: gs)
          from rfl,
        show encodeField [] = [] from rfl, List.nil_append] at key ⊢
      rw [List.cons_append, parse_startRecord_eq_startField ',' _ (by decide)]
      rw [List.cons_append] at key
      exact key
    | cons c f2 =>
      obtain ⟨d, t, he, hd⟩ := encodeField_head_ne_nl (c :: f2) (by simp)
      rw [show rowBody ((c :: f2) :: g :: gs)
          = encodeField (c :: f2) ++ ',' :: rowBody (g :: gs) from rfl] at key ⊢
      rw [he, List.cons_append, List.cons_append,
        parse_startRecord_eq_startField d _ hd]
      rw [he, List.cons_append, List.cons_append] at key
      exact key
  | [c :: f2] =>
    obtain ⟨d, t, he, hd⟩ := encodeField_head_ne_nl (c :: f2) (by simp)
    have hb : writeBody [c :: f2] = rowBody [c :: f2] := by
      rw [writeBody]
      simp
    have key : parseCsv .startField [] [] (rowBody [c :: f2] ++ '\n' :: rest)
        = [c :: f2].map strOf :: parseCsv .startRecord [] [] rest := by
      have := parse_startField_rowBody [c :: f2] (by simp) [] rest
      rw [List.nil_append] at this
      exact this
    rw [hb]
    rw [show rowBody [c :: f2] = encodeField (c :: f2) from rfl] at key ⊢
    rw [he, List.cons_append, parse_startRecord_eq_startField d _ hd]
    rw [he, List.cons_append] at key
    exact key

/-! ### The written text is carriage-return-free away from the terminators -/

theorem mem_escapeQuotes (c : Char) (f : List Char) (h : c ∈ escapeQuotes f) :
    c = '"' ∨ c ∈ f := by
  simp only [escapeQuotes, List.mem_flatMap] at h
  obtain ⟨a, ha, hc⟩ := h
  by_cases hq : a = '"'
  · rw [if_pos hq] at hc
    simp at hc
    exact Or.inl hc
  · rw [if_neg hq] at hc
    simp at hc
    exact Or.inr (hc ▸ ha)

theorem encodeField_no_cr (f : List Char) (h : '\r' ∉ f) :
    '\r' ∉ encodeField f := by
  by_cases hq : needsQuote f
  · rw [encodeField, if_pos hq]
    intro hm
    rcases List.mem_cons.mp hm with h1 | h1
    · exact absurd h1 (by decide)
    · rcases List.mem_append.mp h1 with h2 | h2
      · rcases mem_escapeQuotes _ _ h2 with h3 | h3
        · exact absurd h3 (by decide)
        · exact h h3
      · simp at h2
  · rw [encodeField, if_neg hq]
    exact h

theorem rowBody_no_cr (fields : List (List Char)) (h : ∀ f ∈ fields, '\r' ∉ f) :
    '\r' ∉ rowBody fields := by
  induction fields with
  | nil => simp [rowBody]
  | cons f fs ih =>
    cases fs with
    | nil =>
      rw [show rowBody [f] = encodeField f from rfl]
      exact encodeField_no_cr f (h f (by simp))
    | cons g gs =>
      rw [show rowBody (f :: g :: gs) = encodeField f ++ ',' :: rowBody (g :: gs)
          from rfl]
      intro hm
      rcases List.mem_append.mp hm with h1 | h1
      · exact encodeField_no_cr f (h f (by simp)) h1
      · rcases List.mem_cons.mp h1 with h2 | h2
        · exact absurd h2 (by decide)
        · exact ih (fun x hx => h x (List.mem_cons_of_mem f hx)) h2

theorem writeBody_no_cr (fields : List (List Char)) (h : ∀ f ∈ fields, '\r' ∉ f) :
    '\r' ∉ writeBody fields := by
  match fields with
  | [[]] => decide
  | [] => simp [writeBody, rowBody]
  | [c :: f2] =>
    rw [show writeBody [c :: f2] = rowBody [c :: f2] from by rw [writeBody]; simp]
    exact rowBody_no_cr _ h
  | f :: g :: gs =>
    rw [show writeBody (f :: g :: gs) = rowBody (f :: g :: gs) from by
      rw [writeBody]; simp]
    exact rowBody_no_cr _ h

/-! ### Parsing a whole file of rows -/

theorem parse_blocks (rows : List (List (List Char)))
    (h1 : ∀ row ∈ rows, row ≠ [])
    (h2 : ∀ row ∈ rows, ∀ f ∈ row, '\r' ∉ f) :
    parseCsv .startRecord [] [] (univNewlines ((rows.map writeRow).flatten))
      = rows.map (fun row => row.map strOf) := by
  induction rows with
  | nil => simp [univNewlines, parseCsv_startRecord_nil]
  | cons row rows ih =>
    rw [List.map_cons, List.flatten_cons, writeRow, List.append_assoc,
      show (['\r', '\n'] : List Char) ++ (rows.map writeRow).flatten
        = '\r' :: '\n' :: (rows.map writeRow).flatten from rfl,
      univNewlines_append_crlf _ _ (writeBody_no_cr row (h2 row (by simp))),
      parse_startRecord_writeBody row (h1 row (by simp)),
      ih (fun x hx => h1 x (List.mem_cons_of_mem row hx))
        (fun x hx => h2 x (List.mem_cons_of_mem row hx)),
      List.map_cons]

theorem strOf_data (s : String) : strOf s.data = s := rfl

theorem pyCsvRead_fileText (rs : List LogRecord) (h : ∀ r ∈ rs, crFree r) :
    pyCsvRead (fileText rs)
      = hdrStrings
        :: rs.map (fun r => [r.current_datetime, r.client_ip, r.user_agent]) := by
  rw [pyCsvRead, fileText, parse_blocks]
  · have hh : headerFields.map strOf = hdrStrings := rfl
    have hm : rs.map ((fun row => row.map strOf) ∘ recordRow)
        = rs.map (fun r => [r.current_datetime, r.client_ip, r.user_agent]) := by
      apply List.map_congr_left
      intro r _
      simp [recordRow, Function.comp, strOf_data]
    rw [List.map_cons, List.map_map, hh, hm]
  · intro row hrow
    rcases List.mem_cons.mp hrow with h1 | h1
    · rw [h1]; simp [headerFields]
    · obtain ⟨r, _, hr⟩ := List.mem_map.mp h1
      rw [← hr]; simp [recordRow]
  · intro row hrow
    rcases List.mem_cons.mp hrow with h1 | h1
    · rw [h1]; decide
    · obtain ⟨r, hrm, hr⟩ := List.mem_map.mp h1
      obtain ⟨c1, c2, c3⟩ := h r hrm
      intro f hf
      rw [← hr, recordRow] at hf
      simp only [List.mem_cons, List.not_mem_nil, or_false] at hf
      rcases hf with h2 | h2 | h2
      · rw [h2]; exact c1
      · rw [h2]; exact c2
      · rw [h2]; exact c3

/-! ### The DictReader layer on a well-formed file -/

theorem recordOfRow_hdr3 (t i a : String) :
    recordOfRow hdrStrings [t, i, a]
      = ⟨some t, some i, some a, []⟩ := rfl

theorem recordOfRow_hdr2 (t i : String) :
    recordOfRow hdrStrings [t, i] = ⟨some t, some i, none, []⟩ := rfl

theorem recordOfRow_hdr4 (t i a w : String) :
    recordOfRow hdrStrings [t, i, a, w] = ⟨some t, some i, some a, [w]⟩ := rfl

theorem dictReadAll_fileText (rs : List LogRecord) (h : ∀ r ∈ rs, crFree r) :
    dictReadAll (fileText rs) = rs.map recDict := by
  have hp := pyCsvRead_fileText rs h
  simp only [dictReadAll, hp]
  have hfil : (rs.map (fun r =>
        ([r.current_datetime, r.client_ip, r.user_agent] : List String))).filter
        (fun r => r ≠ []) =
      rs.map (fun r => [r.current_datetime, r.client_ip, r.user_agent]) := by
    apply List.filter_eq_self.mpr
    intro x hx
    obtain ⟨r, _, hr⟩ := List.mem_map.mp hx
    rw [← hr]
    simp
  rw [hfil, List.map_map]
  apply List.map_congr_left
  intro r _
  simp only [Function.comp]
  rw [recordOfRow_hdr3]
  rfl

/-! ### The append path -/

theorem appendAll_some (s : List Char) (rs : List LogRecord) :
    appendAll (some s) rs
      = (some (s ++ ((rs.map recordRow).map writeRow).flatten), 0) := by
  induction rs generalizing s with
  | nil => simp [appendAll]
  | cons r rs ih =>
    simp only [appendAll, file_append, ih, List.map_cons, List.flatten_cons,
      List.append_assoc]

theorem appendAll_none_eq (rs : List LogRecord) (h : rs ≠ []) :
    appendAll none rs = (some (fileText rs), 1) := by
  cases rs with
  | nil => exact absurd rfl h
  | cons r rs =>
    simp only [appendAll, file_append, appendAll_some, fileText, List.map_cons,
      List.flatten_cons, List.append_assoc]

/-- The first parsed row of any file produced by the append path is the
canonical header, whatever the records contain. -/
theorem pyCsvRead_fileText_head (rs : List LogRecord) :
    ∃ tail, pyCsvRead (fileText rs) = hdrStrings :: tail := by
  rw [pyCsvRead, fileText, List.map_cons, List.flatten_cons, writeRow,
    List.append_assoc,
    show (['\r', '\n'] : List Char) ++ ((rs.map recordRow).map writeRow).flatten
      = '\r' :: '\n' :: ((rs.map recordRow).map writeRow).flatten from rfl,
    univNewlines_append_crlf _ _ (writeBody_no_cr headerFields (by decide)),
    parse_startRecord_writeBody headerFields (by simp [headerFields])]
  exact ⟨_, rfl⟩

/-- Parsing a log followed by a malformed two-column line. -/
theorem pyCsvRead_short (rs : List LogRecord) (x y : List Char)
    (h : ∀ r ∈ rs, crFree r) (hx : '\r' ∉ x) (hy : '\r' ∉ y) :
    pyCsvRead (fileText rs ++ writeRow [x, y])
      = hdrStrings
        :: (rs.map (fun r => [r.current_datetime, r.client_ip, r.user_agent])
          ++ [[strOf x, strOf y]]) := by
  have hsplit : fileText rs ++ writeRow [x, y]
      = (((headerFields :: rs.map recordRow) ++ [[x, y]]).map writeRow).flatten := by
    rw [fileText, List.map_append, List.flatten_append]
    simp
  rw [hsplit, pyCsvRead, parse_blocks]
  · have hm : (rs.map recordRow).map (fun row => row.map strOf)
        = rs.map (fun r => [r.current_datetime, r.client_ip, r.user_agent]) := by
      rw [List.map_map]
      apply List.map_congr_left
      intro r _
      simp [recordRow, Function.comp, strOf_data]
    simp only [List.map_append, List.map_cons, List.map_nil, List.cons_append,
      List.nil_append]
    rw [hm]
    rfl
  · intro row hrow
    rcases List.mem_append.mp hrow with h1 | h1
    · rcases List.mem_cons.mp h1 with h2 | h2
      · rw [h2]; simp [headerFields]
      · obtain ⟨r, _, hr⟩ := List.mem_map.mp h2
        rw [← hr]; simp [recordRow]
    · simp at h1
      rw [h1]; simp
  · intro row hrow
    rcases List.mem_append.mp hrow with h1 | h1
    · rcases List.mem_cons.mp h1 with h2 | h2
      · rw [h2]; decide
      · obtain ⟨r, hrm, hr⟩ := List.mem_map.mp h2
        obtain ⟨c1, c2, c3⟩ := h r hrm
        intro f hf
        rw [← hr, recordRow] at hf
        simp only [List.mem_cons, List.not_mem_nil, or_false] at hf
        rcases hf with h3 | h3 | h3
        · rw [h3]; exact c1
        · rw [h3]; exact c2
        · rw [h3]; exact c3
    · simp at h1
      rw [h1]
      intro f hf
      simp only [List.mem_cons, List.not_mem_nil, or_false] at hf
      rcases hf with h3 | h3
      · rw [h3]; exact hx
      · rw [h3]; exact hy

/-- Reading back a log whose last line is a malformed two-column row: the
`DictReader` yields a record with the missing `user_agent` filled by `None`
instead of failing. -/
theorem dictReadAll_short_row (rs : List LogRecord) (x y : List Char)
    (h : ∀ r ∈ rs, crFree r) (hx : '\r' ∉ x) (hy : '\r' ∉ y) :
    dictReadAll (fileText rs ++ writeRow [x, y])
      = rs.map recDict ++ [⟨some (strOf x), some (strOf y), none, []⟩] := by
  have hp := pyCsvRead_short rs x y h hx hy
  simp only [dictReadAll, hp]
  have hfil : ((rs.map (fun r =>
        ([r.current_datetime, r.client_ip, r.user_agent] : List String)))
          ++ [[strOf x, strOf y]]).filter (fun r => r ≠ [])
      = rs.map (fun r => [r.current_datetime, r.client_ip, r.user_agent])
          ++ [[strOf x, strOf y]] := by
    apply List.filter_eq_self.mpr
    intro v hv
    rcases List.mem_append.mp hv with h1 | h1
    · obtain ⟨r, _, hr⟩ := List.mem_map.mp h1
      rw [← hr]; simp
    · simp at h1
      rw [h1]; simp
  rw [hfil, List.map_append, List.map_map]
  rfl

/-! ### Aggregate lemmas for the summary service -/

theorem filter_map_exchange (l : List RowDict) (f : RowDict → Option String)
    (u : Option String) :
    (l.filter (fun r => f r ≠ u)).map f = (l.map f).filter (fun v => v ≠ u) := by
  induction l with
  | nil => rfl
  | cons a l ih =>
    rw [List.map_cons, List.filter_cons, List.filter_cons]
    by_cases h : f a = u
    · rw [if_neg (by simp [h]), if_neg (by simp [h]), ih]
    · rw [if_pos (by simp [h]), if_pos (by simp [h]), List.map_cons, ih]

theorem dedup_filter_card (l : List (Option String)) (u : Option String) :
    ((l.filter (fun v => v ≠ u)).dedup).length = (l.toFinset \ {u}).card := by
  rw [← List.card_toFinset]
  congr 1
  ext v
  simp [List.mem_toFinset, List.mem_filter, Finset.mem_sdiff,
    Finset.mem_singleton, and_comm]

/-! ## The claims -/

/-- C1 (corrected, counterexample): the round trip is NOT exact for every
sequence of appended records: a record whose agent field contains a
carriage return is corrupted on read-back, because the summary/read path
opens the file without `newline=""` and universal-newlines translation
rewrites the `\r` inside the quoted field to `\n`. -/
theorem c1_cr_corruption_counterexample :
    dictReadAll (fileText [⟨"2024-01-01T00:00:00", "1.2.3.4", "agent\rone"⟩])
      = [⟨some "2024-01-01T00:00:00", some "1.2.3.4", some "agent\none", []⟩] ∧
    dictReadAll (fileText [⟨"2024-01-01T00:00:00", "1.2.3.4", "agent\rone"⟩])
      ≠ [recDict ⟨"2024-01-01T00:00:00", "1.2.3.4", "agent\rone"⟩] := by
  constructor
  · decide
  · decide

/-- C1 (amended): for every non-empty sequence of appended records none of
whose fields contains a carriage return, reading the file back with the
`DictReader` returns exactly those records, as structured records with the
three named fields, in append order (and the append path wrote the header
exactly once, followed by the records' rows). -/
theorem c1_append_then_readAll_roundtrip (rs : List LogRecord)
    (h1 : rs ≠ []) (h2 : ∀ r ∈ rs, crFree r) :
    appendAll none rs = (some (fileText rs), 1) ∧
    dictReadAll (fileText rs) = rs.map recDict :=
  ⟨appendAll_none_eq rs h1, dictReadAll_fileText rs h2⟩

theorem c1_witness :
    appendAll none [⟨"2024-01-01T00:00:00", "1.2.3.4", "curl/8.0"⟩]
        = (some (fileText [⟨"2024-01-01T00:00:00", "1.2.3.4", "curl/8.0"⟩]), 1) ∧
      dictReadAll (fileText [⟨"2024-01-01T00:00:00", "1.2.3.4", "curl/8.0"⟩])
        = [⟨"2024-01-01T00:00:00", "1.2.3.4", "curl/8.0"⟩].map recDict :=
  c1_append_then_readAll_roundtrip
    [⟨"2024-01-01T00:00:00", "1.2.3.4", "curl/8.0"⟩] (by decide) (by decide)

/-- C2 (corrected, counterexample): an agent field containing a comma, a
quote character and an embedded newline — here the `\r\n` newline — does
NOT round-trip: the read path's universal-newlines translation turns its
`\r\n` into `\n`, so the read-back string differs from the original. -/
theorem c2_crlf_agent_counterexample :
    dictReadAll (fileText [⟨"2024-01-01T00:00:00", "1.2.3.4", "x,\"y\"\r\nz"⟩])
      = [⟨some "2024-01-01T00:00:00", some "1.2.3.4", some "x,\"y\"\nz", []⟩] ∧
    dictReadAll (fileText [⟨"2024-01-01T00:00:00", "1.2.3.4", "x,\"y\"\r\nz"⟩])
      ≠ [recDict ⟨"2024-01-01T00:00:00", "1.2.3.4", "x,\"y\"\r\nz"⟩] := by
  constructor
  · decide
  · decide

/-- C2 (amended): for every record whose fields contain no carriage return
and whose agent contains a comma, a quote character and an embedded `\n`
newline, appending it and reading it back yields the identical original
agent string — the quoting/escaping round-trips exactly. -/
theorem c2_quoting_roundtrip (t i a : String) (h1 : crFree ⟨t, i, a⟩)
    (h2 : ',' ∈ a.data) (h3 : '"' ∈ a.data) (h4 : '\n' ∈ a.data) :
    dictReadAll (fileText [⟨t, i, a⟩]) = [recDict ⟨t, i, a⟩] :=
  dictReadAll_fileText [⟨t, i, a⟩] (by
    intro r hr
    simp only [List.mem_singleton] at hr
    rw [hr]
    exact h1)

theorem c2_witness :
    dictReadAll (fileText [⟨"2024-01-01T00:00:00", "1.2.3.4", "x,\"y\"\nz"⟩])
      = [recDict ⟨"2024-01-01T00:00:00", "1.2.3.4", "x,\"y\"\nz"⟩] :=
  c2_quoting_roundtrip "2024-01-01T00:00:00" "1.2.3.4" "x,\"y\"\nz"
    (by decide) (by decide) (by decide) (by decide)

/-- C3: when the log is non-empty and the provider call fails with any
error, the endpoint catches the error (the result is a normal `.ok`
response, not a propagated failure) and its `fallback_summary` is the
deterministic templated sentence built purely from the computed
aggregates: row count, unique client count, unique agent count, and the
date range from the first and last record. -/
theorem c3_provider_error_fallback (contents : List Char)
    (provider : List RowDict → Except String String)
    (c0 : RowDict) (crest : List RowDict) (e : String)
    (h1 : dictReadAll contents = c0 :: crest)
    (h2 : provider (c0 :: crest) = .error e) :
    get_file_summaryT (some contents) provider
      = (.ok (.fallback e (fallbackText (c0 :: crest).length
          (uniqueIps (c0 :: crest)) (uniqueAgents (c0 :: crest))
          c0.datetime ((crest.getLastD c0).datetime))), 1) := by
  simp only [get_file_summaryT, h1, h2]

theorem c3_witness :
    get_file_summaryT
        (some (fileText [⟨"2024-01-01T00:00:00", "1.2.3.4", "curl/8.0"⟩]))
        (fun _ => .error "boom")
      = (.ok (.fallback "boom"
          (fallbackText
            [recDict ⟨"2024-01-01T00:00:00", "1.2.3.4", "curl/8.0"⟩].length
            (uniqueIps [recDict ⟨"2024-01-01T00:00:00", "1.2.3.4", "curl/8.0"⟩])
            (uniqueAgents
              [recDict ⟨"2024-01-01T00:00:00", "1.2.3.4", "curl/8.0"⟩])
            (recDict ⟨"2024-01-01T00:00:00", "1.2.3.4", "curl/8.0"⟩).datetime
            (recDict ⟨"2024-01-01T00:00:00", "1.2.3.4", "curl/8.0"⟩).datetime)),
          1) :=
  c3_provider_error_fallback _ _
    (recDict ⟨"2024-01-01T00:00:00", "1.2.3.4", "curl/8.0"⟩) [] "boom"
    (by decide) rfl

/-- C4: for every parsed log content, `unique_ips` equals the cardinality
of the set of `ip_address` values with the sentinel `"unknown"` removed,
and `unique_agents` is the same over `user_agent`: the sentinel is never
counted. -/
theorem c4_unique_counts_exclude_unknown (content : List RowDict) :
    uniqueIps content
      = ((content.map (fun r => r.ip_address)).toFinset
          \ {some "unknown"}).card ∧
    uniqueAgents content
      = ((content.map (fun r => r.user_agent)).toFinset
          \ {some "unknown"}).card := by
  constructor
  · rw [uniqueIps, filter_map_exchange, dedup_filter_card]
  · rw [uniqueAgents, filter_map_exchange, dedup_filter_card]

/-- C5: for every non-empty sequence of appends starting from the absent
file, the header row is written exactly once (the header-write count of
the whole sequence is 1) and the resulting file is the header row followed
by the record rows; the first row the csv reader parses from it is the
canonical header, whatever the records contain. -/
theorem c5_header_written_once (rs : List LogRecord) (h : rs ≠ []) :
    appendAll none rs = (some (fileText rs), 1) ∧
    ∃ tail, pyCsvRead (fileText rs) = hdrStrings :: tail :=
  ⟨appendAll_none_eq rs h, pyCsvRead_fileText_head rs⟩

theorem c5_witness :
    appendAll none
        [⟨"2024-01-01T00:00:00", "1.2.3.4", "curl/8.0"⟩,
          ⟨"2024-01-01T00:00:01", "1.2.3.4", "curl/8.0"⟩]
      = (some (fileText
          [⟨"2024-01-01T00:00:00", "1.2.3.4", "curl/8.0"⟩,
            ⟨"2024-01-01T00:00:01", "1.2.3.4", "curl/8.0"⟩]), 1) ∧
    ∃ tail, pyCsvRead (fileText
        [⟨"2024-01-01T00:00:00", "1.2.3.4", "curl/8.0"⟩,
          ⟨"2024-01-01T00:00:01", "1.2.3.4", "curl/8.0"⟩])
      = hdrStrings :: tail :=
  c5_header_written_once _ (by decide)

/-- C6: when the log file does not exist the summary endpoint fails with
the 404 not-found signal and makes no provider call; when the file exists
(whatever it contains) the endpoint never returns the 404. -/
theorem c6_absent_file_404 :
    (∀ provider, get_file_summaryT none provider = (.error (), 0)) ∧
    (∀ contents provider,
      (get_file_summaryT (some contents) provider).1 ≠ .error ()) := by
  constructor
  · intro provider
    rfl
  · intro contents provider
    rcases hd : dictReadAll contents with _ | ⟨c0, crest⟩
    · simp [get_file_summaryT, hd]
    · rcases hp : provider (c0 :: crest) with e | t
      · simp [get_file_summaryT, hd, hp]
      · simp [get_file_summaryT, hd, hp]

/-- C7: on a header-only file the summary endpoint returns the
`"No data to summarize"` response and never calls the provider; the result
does not depend on the provider at all. -/
theorem c7_header_only_no_provider_call :
    ∀ provider,
      get_file_summaryT (some (writeRow headerFields)) provider
        = (.ok .emptyCsv, 0) := by
  intro provider
  have hd : dictReadAll (writeRow headerFields) = [] := by decide
  simp [get_file_summaryT, hd]

/-- C8 (corrected, counterexample): reading a file whose data row has the
wrong column count does NOT fail: the `DictReader` returns a structured
record, filling the missing `user_agent` with `None`. -/
theorem c8_malformed_row_counterexample :
    readAllE (some (writeRow headerFields
        ++ "2024-01-01T00:00:00,1.2.3.4\r\n".data))
      = .ok [⟨some "2024-01-01T00:00:00", some "1.2.3.4", none, []⟩] := rfl

/-- C8 (amended): `readAll` never fails on a malformed row: for every log
with a trailing two-column row the missing field is `None`, and a row with
extra columns collects them under the rest key. -/
theorem c8_malformed_row_tolerated (rs : List LogRecord) (x y : List Char)
    (h : ∀ r ∈ rs, crFree r) (hx : '\r' ∉ x) (hy : '\r' ∉ y) :
    readAllE (some (fileText rs ++ writeRow [x, y]))
      = .ok (rs.map recDict
          ++ [⟨some (strOf x), some (strOf y), none, []⟩]) ∧
    readAllE (some (writeRow headerFields
        ++ writeRow ["t".data, "i".data, "a".data, "extra".data]))
      = .ok [⟨some "t", some "i", some "a", ["extra"]⟩] := by
  constructor
  · simp only [readAllE, dictReadAll_short_row rs x y h hx hy]
  · rfl

theorem c8_witness :
    (readAllE (some (fileText [] ++ writeRow ["2024".data, "1.2.3.4".data]))
        = .ok (([] : List LogRecord).map recDict
            ++ [⟨some (strOf "2024".data), some (strOf "1.2.3.4".data), none,
              []⟩]) ∧
      readAllE (some (writeRow headerFields
          ++ writeRow ["t".data, "i".data, "a".data, "extra".data]))
        = .ok [⟨some "t", some "i", some "a", ["extra"]⟩]) :=
  c8_malformed_row_tolerated [] "2024".data "1.2.3.4".data
    (by simp) (by decide) (by decide)

/-- C9 (corrected, counterexample): the append path substitutes the
sentinel only for a MISSING user-agent header; a present-but-empty header
value yields a record with an empty agent field, contradicting the
never-empty invariant. -/
theorem c9_empty_header_counterexample :
    (mkRecord "2024-01-01T00:00:00" (some "1.2.3.4") (some "")).user_agent
      = "" := rfl

/-- C9 (amended): provided the captured timestamp is non-empty and the
supplied client host and user-agent header values, when present, are
non-empty, every record built by the append path has three non-empty
fields, and the sentinel `"unknown"` is substituted exactly when the
client or the header is absent. -/
theorem c9_record_fields (now : String) (host ua : Option String)
    (h1 : now ≠ "") (h2 : host ≠ some "") (h3 : ua ≠ some "") :
    (mkRecord now host ua).current_datetime ≠ "" ∧
    (mkRecord now host ua).client_ip ≠ "" ∧
    (mkRecord now host ua).user_agent ≠ "" ∧
    (host = none → (mkRecord now host ua).client_ip = "unknown") ∧
    (ua = none → (mkRecord now host ua).user_agent = "unknown") := by
  refine ⟨h1, ?_, ?_, ?_, ?_⟩
  · cases host with
    | none =>
      show ("unknown" : String) ≠ ""
      decide
    | some s =>
      show s ≠ ""
      intro e
      exact h2 (by rw [e])
  · cases ua with
    | none =>
      show ("unknown" : String) ≠ ""
      decide
    | some u =>
      show u ≠ ""
      intro e
      exact h3 (by rw [e])
  · intro he
    rw [he]
    rfl
  · intro he
    rw [he]
    rfl

theorem c9_witness :
    (mkRecord "2024-01-01T00:00:00" none (some "curl/8.0")).current_datetime
        ≠ "" ∧
    (mkRecord "2024-01-01T00:00:00" none (some "curl/8.0")).client_ip ≠ "" ∧
    (mkRecord "2024-01-01T00:00:00" none (some "curl/8.0")).user_agent ≠ "" ∧
    (none = (none : Option String) →
      (mkRecord "2024-01-01T00:00:00" none (some "curl/8.0")).client_ip
        = "unknown") ∧
    (some "curl/8.0" = (none : Option String) →
      (mkRecord "2024-01-01T00:00:00" none (some "curl/8.0")).user_agent
        = "unknown") :=
  c9_record_fields "2024-01-01T00:00:00" none (some "curl/8.0")
    (by decide) (by decide) (by decide)

/-- C10: the summary endpoint never modifies the log: for every initial
file state and every provider behaviour, the file state after the call is
identical to the state before it. -/
theorem c10_summary_preserves_file :
    ∀ st provider, (summaryStep st provider).1 = st := by
  intro st provider
  cases st with
  | none => rfl
  | some contents => rfl

end Alex2
